import Mathlib

/-!
Shallow embedding of the bitboard chess core of the `jurgio_engine` repository
(`src/pieces.rs`, `src/board.rs`, `src/zorbist.rs`, `src/history.rs`), together
with theorems settling the specification claims about it.

Machine integers (`u64`, `usize`) are modelled as `Nat`; bitwise `u64`
operations use explicit masks against `2 ^ 64 - 1` where Rust's fixed width
matters.  Functions that can panic in Rust (`expect`, index out of bounds,
`usize` underflow) are modelled as `Option`-returning functions, with `none`
for the panic.
-/

namespace Jurgio

/-- Piece colours, from `pieces.rs` (`enum PieceColour`). -/
inductive PieceColour where
  | White
  | Black
deriving DecidableEq, Repr

/-- Piece kinds, from `pieces.rs` (`enum PieceKind`). -/
inductive PieceKind where
  | Pawn
  | Knight
  | Bishop
  | Rook
  | Queen
  | King
deriving DecidableEq, Repr

/-- A piece value, from `pieces.rs` (`struct Piece`). -/
structure Piece where
  kind : PieceKind
  colour : PieceColour
deriving DecidableEq, Repr

/-- From `pieces.rs`: `PieceColour::opposite`. -/
def PieceColour.opposite : PieceColour → PieceColour
  | PieceColour.White => PieceColour.Black
  | PieceColour.Black => PieceColour.White

/-- A bitboard, from `board.rs` (`struct BitBoard(pub u64)`). -/
structure BitBoard where
  val : Nat
deriving DecidableEq, Repr

/-- Bitwise complement on 64-bit words (Rust `!x` on `u64`). -/
def u64not (x : Nat) : Nat := (2 ^ 64 - 1) ^^^ x

/-- From `board.rs`: `BitBoard::empty`. -/
def BitBoard.empty : BitBoard := ⟨0⟩

/-- From `board.rs`: `BitBoard::set` (`self.0 |= 1 << square`). -/
def BitBoard.set (b : BitBoard) (square : Nat) : BitBoard :=
  ⟨b.val ||| (1 <<< square)⟩

/-- From `board.rs`: `BitBoard::clear` (`self.0 &= !(1 << square)`). -/
def BitBoard.clear (b : BitBoard) (square : Nat) : BitBoard :=
  ⟨b.val &&& u64not (1 <<< square)⟩

/-- From `board.rs`: `BitBoard::is_set` (`self.0 & (1 << square) != 0`). -/
def BitBoard.is_set (b : BitBoard) (square : Nat) : Bool :=
  b.val &&& (1 <<< square) != 0

/-- The `ChessMove` value consumed by `BoardState::apply_move` in `board.rs`:
fields `from: usize`, `to: usize`, `promotion: Option<PieceKind>` (the Rust
field names `from` / `to` are keywords here, hence `fromSq` / `toSq`). -/
structure ChessMove where
  fromSq : Nat
  toSq : Nat
  promotion : Option PieceKind
deriving DecidableEq, Repr

/-- The four castling-rights booleans, modelling the array
`castling_rights: [bool; 4]` of `BoardState`; field `wk` is index 0
(white kingside), `wq` index 1, `bk` index 2, `bq` index 3. -/
structure CastlingRights where
  wk : Bool
  wq : Bool
  bk : Bool
  bq : Bool
deriving DecidableEq, Repr

/-- From `board.rs`: `struct BoardState`. -/
structure BoardState where
  white_pawns : BitBoard
  black_pawns : BitBoard
  white_knights : BitBoard
  black_knights : BitBoard
  white_bishops : BitBoard
  black_bishops : BitBoard
  white_rooks : BitBoard
  black_rooks : BitBoard
  white_queens : BitBoard
  black_queens : BitBoard
  white_king : BitBoard
  black_king : BitBoard
  all_white : BitBoard
  all_black : BitBoard
  all_pieces : BitBoard
  to_move : PieceColour
  castling_rights : CastlingRights
  en_passant_square : Option Nat
deriving Repr

/-- From `board.rs`: `BoardState::update_aggregate_bitboards`. -/
def BoardState.update_aggregate_bitboards (b : BoardState) : BoardState :=
  let all_white : BitBoard :=
    ⟨b.white_pawns.val ||| b.white_knights.val ||| b.white_bishops.val |||
      b.white_rooks.val ||| b.white_queens.val ||| b.white_king.val⟩
  let all_black : BitBoard :=
    ⟨b.black_pawns.val ||| b.black_knights.val ||| b.black_bishops.val |||
      b.black_rooks.val ||| b.black_queens.val ||| b.black_king.val⟩
  { b with
    all_white := all_white
    all_black := all_black
    all_pieces := ⟨all_white.val ||| all_black.val⟩ }

/-- From `board.rs`: `BoardState::setup_pieces`. -/
def BoardState.setup_pieces (b : BoardState) : BoardState :=
  let b := { b with white_pawns := (List.range' 8 8).foldl BitBoard.set b.white_pawns }
  let b := { b with black_pawns := (List.range' 48 8).foldl BitBoard.set b.black_pawns }
  let b := { b with white_rooks := (b.white_rooks.set 0).set 7 }
  let b := { b with black_rooks := (b.black_rooks.set 56).set 63 }
  let b := { b with white_knights := (b.white_knights.set 1).set 6 }
  let b := { b with black_knights := (b.black_knights.set 57).set 62 }
  let b := { b with white_bishops := (b.white_bishops.set 2).set 5 }
  let b := { b with black_bishops := (b.black_bishops.set 58).set 61 }
  let b := { b with white_queens := b.white_queens.set 3 }
  let b := { b with black_queens := b.black_queens.set 59 }
  let b := { b with white_king := b.white_king.set 4 }
  let b := { b with black_king := b.black_king.set 60 }
  b.update_aggregate_bitboards

/-- From `board.rs`: `BoardState::new`. -/
def BoardState.new : BoardState :=
  BoardState.setup_pieces
    { white_pawns := BitBoard.empty
      black_pawns := BitBoard.empty
      white_knights := BitBoard.empty
      black_knights := BitBoard.empty
      white_bishops := BitBoard.empty
      black_bishops := BitBoard.empty
      white_rooks := BitBoard.empty
      black_rooks := BitBoard.empty
      white_queens := BitBoard.empty
      black_queens := BitBoard.empty
      white_king := BitBoard.empty
      black_king := BitBoard.empty
      all_white := BitBoard.empty
      all_black := BitBoard.empty
      all_pieces := BitBoard.empty
      to_move := PieceColour.White
      castling_rights := ⟨true, true, true, true⟩
      en_passant_square := none }

/-- From `board.rs`: `BoardState::piece_at`, the public piece lookup —
checks the 12 bitboards in a fixed order and returns the first hit. -/
def BoardState.piece_at (b : BoardState) (square : Nat) : Option Piece :=
  if b.white_pawns.is_set square then
    some ⟨PieceKind.Pawn, PieceColour.White⟩
  else if b.black_pawns.is_set square then
    some ⟨PieceKind.Pawn, PieceColour.Black⟩
  else if b.white_knights.is_set square then
    some ⟨PieceKind.Knight, PieceColour.White⟩
  else if b.black_knights.is_set square then
    some ⟨PieceKind.Knight, PieceColour.Black⟩
  else if b.white_bishops.is_set square then
    some ⟨PieceKind.Bishop, PieceColour.White⟩
  else if b.black_bishops.is_set square then
    some ⟨PieceKind.Bishop, PieceColour.Black⟩
  else if b.white_rooks.is_set square then
    some ⟨PieceKind.Rook, PieceColour.White⟩
  else if b.black_rooks.is_set square then
    some ⟨PieceKind.Rook, PieceColour.Black⟩
  else if b.white_queens.is_set square then
    some ⟨PieceKind.Queen, PieceColour.White⟩
  else if b.black_queens.is_set square then
    some ⟨PieceKind.Queen, PieceColour.Black⟩
  else if b.white_king.is_set square then
    some ⟨PieceKind.King, PieceColour.White⟩
  else if b.black_king.is_set square then
    some ⟨PieceKind.King, PieceColour.Black⟩
  else
    none

/-- From `board.rs`: the private `BoardState::get_piece_at_square`, the second
piece-lookup implementation, transcribed separately from `piece_at`. -/
def BoardState.get_piece_at_square (b : BoardState) (square : Nat) : Option Piece :=
  if b.white_pawns.is_set square then
    some ⟨PieceKind.Pawn, PieceColour.White⟩
  else if b.black_pawns.is_set square then
    some ⟨PieceKind.Pawn, PieceColour.Black⟩
  else if b.white_knights.is_set square then
    some ⟨PieceKind.Knight, PieceColour.White⟩
  else if b.black_knights.is_set square then
    some ⟨PieceKind.Knight, PieceColour.Black⟩
  else if b.white_bishops.is_set square then
    some ⟨PieceKind.Bishop, PieceColour.White⟩
  else if b.black_bishops.is_set square then
    some ⟨PieceKind.Bishop, PieceColour.Black⟩
  else if b.white_rooks.is_set square then
    some ⟨PieceKind.Rook, PieceColour.White⟩
  else if b.black_rooks.is_set square then
    some ⟨PieceKind.Rook, PieceColour.Black⟩
  else if b.white_queens.is_set square then
    some ⟨PieceKind.Queen, PieceColour.White⟩
  else if b.black_queens.is_set square then
    some ⟨PieceKind.Queen, PieceColour.Black⟩
  else if b.white_king.is_set square then
    some ⟨PieceKind.King, PieceColour.White⟩
  else if b.black_king.is_set square then
    some ⟨PieceKind.King, PieceColour.Black⟩
  else
    none

/-- From `board.rs`: `BoardState::clear_square`.  Note that the source clears
only the two pawn bitboards and the three aggregate bitboards, not the other
ten piece bitboards. -/
def BoardState.clear_square (b : BoardState) (square : Nat) : BoardState :=
  { b with
    white_pawns := b.white_pawns.clear square
    black_pawns := b.black_pawns.clear square
    all_white := b.all_white.clear square
    all_black := b.all_black.clear square
    all_pieces := b.all_pieces.clear square }

/-- From `board.rs`: `BoardState::set_piece_at` — `clear_square`, then OR the
bit onto the single bitboard selected by `(piece.colour, piece.kind)`. -/
def BoardState.set_piece_at (b : BoardState) (square : Nat) (piece : Piece) : BoardState :=
  let bit : Nat := 1 <<< square
  let b := b.clear_square square
  match piece.colour, piece.kind with
  | PieceColour.White, PieceKind.Pawn => { b with white_pawns := ⟨b.white_pawns.val ||| bit⟩ }
  | PieceColour.Black, PieceKind.Pawn => { b with black_pawns := ⟨b.black_pawns.val ||| bit⟩ }
  | PieceColour.White, PieceKind.Knight => { b with white_knights := ⟨b.white_knights.val ||| bit⟩ }
  | PieceColour.Black, PieceKind.Knight => { b with black_knights := ⟨b.black_knights.val ||| bit⟩ }
  | PieceColour.White, PieceKind.Bishop => { b with white_bishops := ⟨b.white_bishops.val ||| bit⟩ }
  | PieceColour.Black, PieceKind.Bishop => { b with black_bishops := ⟨b.black_bishops.val ||| bit⟩ }
  | PieceColour.White, PieceKind.Rook => { b with white_rooks := ⟨b.white_rooks.val ||| bit⟩ }
  | PieceColour.Black, PieceKind.Rook => { b with black_rooks := ⟨b.black_rooks.val ||| bit⟩ }
  | PieceColour.White, PieceKind.Queen => { b with white_queens := ⟨b.white_queens.val ||| bit⟩ }
  | PieceColour.Black, PieceKind.Queen => { b with black_queens := ⟨b.black_queens.val ||| bit⟩ }
  | PieceColour.White, PieceKind.King => { b with white_king := ⟨b.white_king.val ||| bit⟩ }
  | PieceColour.Black, PieceKind.King => { b with black_king := ⟨b.black_king.val ||| bit⟩ }

/-- From `board.rs`: `BoardState::flip_turn`. -/
def BoardState.flip_turn (b : BoardState) : BoardState :=
  { b with to_move := b.to_move.opposite }

/-- From `board.rs` (`is_square_safe`): the pawn attack offsets probed from the
target square, chosen by the opponent's colour. -/
def pawn_attack_offsets (opponent_colour : PieceColour) : List Int :=
  if opponent_colour = PieceColour.White then [-9, -7] else [9, 7]

/-- From `board.rs` (`is_square_safe`): the knight offsets. -/
def knight_offsets : List Int := [17, 15, 10, 6, -17, -15, -10, -6]

/-- From `board.rs` (`is_square_safe`): the eight sliding directions. -/
def sliding_directions : List Int := [9, 7, -9, -7, 8, -8, 1, -1]

/-- From `board.rs` (`is_square_safe`): the king offsets. -/
def king_offsets : List Int := [9, 7, -9, -7, 8, -8, 1, -1]

/-- Models the repeated probe pattern of `is_square_safe`:
`let target = (square as isize + offset) as usize; if target < 64 { … }`.
A negative sum wraps to a huge `usize` in Rust and fails `target < 64`, so the
Rust guard is equivalent to `0 ≤ target ∧ target < 64` over `Int`. -/
def offset_probe (b : BoardState) (square : Nat) (offset : Int)
    (check : Piece → Bool) : Bool :=
  let target : Int := (square : Int) + offset
  if 0 ≤ target ∧ target < 64 then
    match b.piece_at target.toNat with
    | some piece => check piece
    | none => false
  else false

/-- From `board.rs` (`is_square_safe`, sliding section): whether an occupied
square ends the ray with an attack — opponent's colour and a kind matching the
ray direction. -/
def slide_match (piece : Piece) (opponent_colour : PieceColour) (direction : Int) : Bool :=
  piece.colour == opponent_colour &&
    ((piece.kind == PieceKind.Bishop && ([9, 7, -9, -7] : List Int).contains direction) ||
     (piece.kind == PieceKind.Rook && ([8, -8, 1, -1] : List Int).contains direction) ||
     piece.kind == PieceKind.Queen)

/-- From `board.rs` (`is_square_safe`, sliding section): the
`while target >= 0 && target < 64` walk along one ray, one step at a time,
stopping at the first occupied square.  The walk visits at most 64 in-range
squares, so fuel 64 makes the recursion total without changing behaviour. -/
def ray_attack (b : BoardState) (opponent_colour : PieceColour) (direction : Int) :
    Nat → Int → Bool
  | 0, _ => false
  | fuel + 1, target =>
    if 0 ≤ target ∧ target < 64 then
      match b.piece_at target.toNat with
      | some piece => slide_match piece opponent_colour direction
      | none => ray_attack b opponent_colour direction fuel (target + direction)
    else false

/-- From `board.rs`: `BoardState::is_square_safe`.  The Rust function
early-returns `false` on the first attacker found; the sequential `for` loops
with early return are rendered as `List.any`. -/
def BoardState.is_square_safe (b : BoardState) (square : Nat) : Bool :=
  let opponent_colour := b.to_move.opposite
  if (pawn_attack_offsets opponent_colour).any (fun offset =>
      offset_probe b square offset (fun piece =>
        piece.kind == PieceKind.Pawn && piece.colour == opponent_colour)) then
    false
  else if knight_offsets.any (fun offset =>
      offset_probe b square offset (fun piece =>
        piece.kind == PieceKind.Knight && piece.colour == opponent_colour)) then
    false
  else if sliding_directions.any (fun direction =>
      ray_attack b opponent_colour direction 64 ((square : Int) + direction)) then
    false
  else if king_offsets.any (fun offset =>
      offset_probe b square offset (fun piece =>
        piece.kind == PieceKind.King && piece.colour == opponent_colour)) then
    false
  else
    true

/-- From `board.rs`: `BoardState::validate_castling_pieces` — only the *kind*
of the occupants is checked, not their colour. -/
def BoardState.validate_castling_pieces (b : BoardState)
    (king_square rook_square : Nat) : Bool :=
  (match b.piece_at king_square with
   | some piece => piece.kind == PieceKind.King
   | none => false) &&
  (match b.piece_at rook_square with
   | some piece => piece.kind == PieceKind.Rook
   | none => false)

/-- From `board.rs`: `BoardState::can_castle_kingside`. -/
def BoardState.can_castle_kingside (b : BoardState) (colour : PieceColour) : Bool :=
  let cfg : Nat × Nat × List Nat × List Nat :=
    match colour with
    | PieceColour.White => (4, 7, [5, 6], [4, 5, 6])
    | PieceColour.Black => (60, 63, [61, 62], [60, 61, 62])
  let king_square := cfg.1
  let rook_square := cfg.2.1
  let empty_squares := cfg.2.2.1
  let check_squares := cfg.2.2.2
  let rights :=
    match colour with
    | PieceColour.White => b.castling_rights.wk
    | PieceColour.Black => b.castling_rights.bk
  rights
    && empty_squares.all (fun sq => !(b.all_pieces.is_set sq))
    && check_squares.all (fun sq => b.is_square_safe sq)
    && b.validate_castling_pieces king_square rook_square

/-- From `board.rs`: `BoardState::can_castle_queenside`. -/
def BoardState.can_castle_queenside (b : BoardState) (colour : PieceColour) : Bool :=
  let cfg : Nat × Nat × List Nat × List Nat :=
    match colour with
    | PieceColour.White => (4, 0, [1, 2, 3], [2, 3, 4])
    | PieceColour.Black => (60, 56, [57, 58, 59], [58, 59, 60])
  let king_square := cfg.1
  let rook_square := cfg.2.1
  let empty_squares := cfg.2.2.1
  let check_squares := cfg.2.2.2
  let rights :=
    match colour with
    | PieceColour.White => b.castling_rights.wq
    | PieceColour.Black => b.castling_rights.bq
  rights
    && empty_squares.all (fun sq => !(b.all_pieces.is_set sq))
    && check_squares.all (fun sq => b.is_square_safe sq)
    && b.validate_castling_pieces king_square rook_square

/-- From `board.rs`: `BoardState::update_en_passant_square`.  The rule inspects
the piece still standing on the origin square. -/
def BoardState.update_en_passant_square (b : BoardState) (chess_move : ChessMove) :
    BoardState :=
  let from_rank := chess_move.fromSq / 8
  let to_rank := chess_move.toSq / 8
  match b.piece_at chess_move.fromSq with
  | some piece =>
    if piece.kind == PieceKind.Pawn && ((to_rank : Int) - (from_rank : Int)).natAbs == 2 then
      { b with en_passant_square := some ((chess_move.fromSq + chess_move.toSq) / 2) }
    else
      { b with en_passant_square := none }
  | none => { b with en_passant_square := none }

/-- From `board.rs`: `BoardState::apply_move`.  The Rust function calls
`.expect` on the origin lookup, so a move from an empty square panics; that
panic is modelled as `none`.  The Zobrist recomputation at the end of the Rust
function does not alter the board and is omitted. -/
def BoardState.apply_move (b : BoardState) (chess_move : ChessMove) : Option BoardState :=
  let fromSq := chess_move.fromSq
  let toSq := chess_move.toSq
  match b.piece_at fromSq with
  | none => none
  | some piece =>
    let b := b.update_en_passant_square chess_move
    let b := b.clear_square fromSq
    let b := b.set_piece_at toSq piece
    let b :=
      if piece.kind == PieceKind.Pawn then
        let b :=
          match b.en_passant_square with
          | some ep_square =>
            if toSq == ep_square then
              let captured_square :=
                if piece.colour == PieceColour.White then toSq - 8 else toSq + 8
              b.clear_square captured_square
            else b
          | none => b
        match chess_move.promotion with
        | some promotion =>
          (b.clear_square toSq).set_piece_at toSq ⟨promotion, piece.colour⟩
        | none => b
      else b
    some b.flip_turn

/-- From `zorbist.rs`: the key tables of `struct ZobristHashing`.  The Rust
tables are filled from a seeded ChaCha20 generator; the concrete stream is not
re-modelled, so the tables are an arbitrary parameter here:
`piece_keys c k s` is `piece_keys[c][k][s]`, indexed colour, kind, square. -/
structure ZobristHashing where
  piece_keys : Nat → Nat → Nat → Nat
  side_to_move_key : Nat
  castling_keys : Nat → Nat
  en_passant_keys : Nat → Nat

/-- From `zorbist.rs` (`compute_hash`): the colour index of a piece. -/
def colour_index : PieceColour → Nat
  | PieceColour.White => 0
  | PieceColour.Black => 1

/-- From `zorbist.rs` (`compute_hash`): the kind index of a piece. -/
def piece_index : PieceKind → Nat
  | PieceKind.Pawn => 0
  | PieceKind.Knight => 1
  | PieceKind.Bishop => 2
  | PieceKind.Rook => 3
  | PieceKind.Queen => 4
  | PieceKind.King => 5

/-- From `zorbist.rs`: `BoardState::get_castling_rights_index`.  Note the four
bits come from the dynamic `can_castle_*` queries, not from the stored
`castling_rights` array. -/
def BoardState.get_castling_rights_index (b : BoardState) : Nat :=
  let index : Nat := 0
  let index := if b.can_castle_kingside PieceColour.White then index ||| (1 <<< 0) else index
  let index := if b.can_castle_queenside PieceColour.White then index ||| (1 <<< 1) else index
  let index := if b.can_castle_kingside PieceColour.Black then index ||| (1 <<< 2) else index
  let index := if b.can_castle_queenside PieceColour.Black then index ||| (1 <<< 3) else index
  index

/-- From `zorbist.rs`: `ZobristHashing::compute_hash`. -/
def ZobristHashing.compute_hash (z : ZobristHashing) (board : BoardState) : Nat :=
  let hash := (List.range 64).foldl
    (fun hash square =>
      match board.piece_at square with
      | some piece =>
        hash ^^^ z.piece_keys (colour_index piece.colour) (piece_index piece.kind) square
      | none => hash)
    0
  let hash :=
    if board.to_move == PieceColour.Black then hash ^^^ z.side_to_move_key else hash
  let hash := hash ^^^ z.castling_keys board.get_castling_rights_index
  let hash :=
    match board.en_passant_square with
    | some ep_file => hash ^^^ z.en_passant_keys (ep_file % 8)
    | none => hash
  hash

/-- From `history.rs`: `struct GameState`. -/
structure GameState where
  zobrist_hash : Nat
  half_move_clock : Nat
deriving DecidableEq, Repr

/-- From `history.rs`: `MAX_GAME_MOVES`. -/
def MAX_GAME_MOVES : Nat := 1024

/-- From `history.rs`: `struct History`.  The fixed array `list` together with
`count` is modelled by the list of its first `count` entries (oldest first);
the `HashMap<u64, usize>` of repetition counts is modelled by an association
list of (hash, count) pairs. -/
structure History where
  entries : List GameState
  repetitions : List (Nat × Nat)
deriving Repr

/-- Association-list lookup, modelling `HashMap::get` on the repetitions map. -/
def reps_lookup : List (Nat × Nat) → Nat → Option Nat
  | [], _ => none
  | (k, v) :: rest, z => if k = z then some v else reps_lookup rest z

/-- Models `*self.repetitions.entry(h).or_insert(0) += 1` from `History::push`. -/
def reps_incr : List (Nat × Nat) → Nat → List (Nat × Nat)
  | [], z => [(z, 1)]
  | (k, v) :: rest, z =>
    if k = z then (k, v + 1) :: rest else (k, v) :: reps_incr rest z

/-- Models the decrement-and-remove-at-zero step of `History::pop`: `get_mut`
leaves an absent key untouched; a present count is decremented and the entry
removed when it reaches zero. -/
def reps_decr : List (Nat × Nat) → Nat → List (Nat × Nat)
  | [], _ => []
  | (k, v) :: rest, z =>
    if k = z then (if v - 1 = 0 then rest else (k, v - 1) :: rest)
    else (k, v) :: reps_decr rest z

/-- From `history.rs`: `History::new`. -/
def History.new : History := ⟨[], []⟩

/-- From `history.rs`: `History::push`.  Writing `list[count]` with
`count = MAX_GAME_MOVES` is an out-of-bounds panic, modelled as `none`. -/
def History.push (h : History) (g : GameState) : Option History :=
  if h.entries.length < MAX_GAME_MOVES then
    some ⟨h.entries ++ [g], reps_incr h.repetitions g.zobrist_hash⟩
  else none

/-- From `history.rs`: `History::pop` — returns the popped state (if any) and
the updated history. -/
def History.pop (h : History) : Option GameState × History :=
  match h.entries.getLast? with
  | some state =>
    (some state, ⟨h.entries.dropLast, reps_decr h.repetitions state.zobrist_hash⟩)
  | none => (none, h)

/-- From `history.rs`: `History::clear`. -/
def History.clear (_h : History) : History := ⟨[], []⟩

/-- From `history.rs`: `History::is_threefold_repetition` —
`self.repetitions.values().any(|&count| count >= 3)`. -/
def History.is_threefold_repetition (h : History) : Bool :=
  h.repetitions.any (fun p => decide (3 ≤ p.2))

/-- From `history.rs`: `History::is_fifty_move_rule` —
`self.list[self.count - 1].half_move_clock >= 100`.  When `count = 0` the
index computation `count - 1` underflows `usize` and the access panics; the
panic is modelled as `none`. -/
def History.is_fifty_move_rule (h : History) : Option Bool :=
  match h.entries.getLast? with
  | some state => some (decide (100 ≤ state.half_move_clock))
  | none => none

/-- The histories reachable from `History::new` by `push` / `pop` / `clear`
(`push` only when it does not overflow the fixed capacity). -/
inductive Reached : History → Prop where
  | new : Reached History.new
  | push {h h' : History} {g : GameState} :
      Reached h → h.push g = some h' → Reached h'
  | pop {h : History} : Reached h → Reached (h.pop).2
  | clear {h : History} : Reached h → Reached (h.clear)

/-! Spec-side definitions, test fixtures and invariant predicates used by the
claim theorems. -/

/-- How many of the 12 per-piece bitboards contain a given square.  The
documented invariant says this is at most 1. -/
def piece_sets_containing (b : BoardState) (square : Nat) : Nat :=
  [b.white_pawns, b.black_pawns, b.white_knights, b.black_knights,
   b.white_bishops, b.black_bishops, b.white_rooks, b.black_rooks,
   b.white_queens, b.black_queens, b.white_king, b.black_king].countP
    (fun bb => bb.is_set square)

/-- Union of the six white piece bitboards. -/
def white_union (b : BoardState) : Nat :=
  b.white_pawns.val ||| b.white_knights.val ||| b.white_bishops.val |||
    b.white_rooks.val ||| b.white_queens.val ||| b.white_king.val

/-- Union of the six black piece bitboards. -/
def black_union (b : BoardState) : Nat :=
  b.black_pawns.val ||| b.black_knights.val ||| b.black_bishops.val |||
    b.black_rooks.val ||| b.black_queens.val ||| b.black_king.val

/-- The aggregate-bitboard invariant claimed by the spec: `all_white` and
`all_black` are the unions of the white / black piece boards, `all_pieces`
their union, and white and black occupancy are disjoint. -/
def aggregates_ok (b : BoardState) : Bool :=
  (b.all_white.val == white_union b) &&
  (b.all_black.val == black_union b) &&
  (b.all_pieces.val == (white_union b ||| black_union b)) &&
  (b.all_white.val &&& b.all_black.val == 0)

/-- A position one ply after the double push d7-d5: white pawn on e4
(square 36), black pawn on d5 (square 35), en-passant target d6 (square 43),
White to move.  The en-passant capture e4xd5 is the move 36 → 43. -/
def en_passant_test_board : BoardState :=
  { white_pawns := ⟨1 <<< 36⟩
    black_pawns := ⟨1 <<< 35⟩
    white_knights := ⟨0⟩
    black_knights := ⟨0⟩
    white_bishops := ⟨0⟩
    black_bishops := ⟨0⟩
    white_rooks := ⟨0⟩
    black_rooks := ⟨0⟩
    white_queens := ⟨0⟩
    black_queens := ⟨0⟩
    white_king := ⟨0⟩
    black_king := ⟨0⟩
    all_white := ⟨1 <<< 36⟩
    all_black := ⟨1 <<< 35⟩
    all_pieces := ⟨(1 <<< 36) ||| (1 <<< 35)⟩
    to_move := PieceColour.White
    castling_rights := ⟨false, false, false, false⟩
    en_passant_square := some 43 }

/-- The standard start position with the kingside squares f1 (5) and g1 (6)
vacated the way the repository's own castling tests do it: clearing only the
`all_pieces` aggregate. -/
def kingside_test_board : BoardState :=
  { BoardState.new with
    all_pieces := (BoardState.new.all_pieces.clear 5).clear 6 }

/-- A position with a single black rook on a2 (square 8) and White to move,
used to probe `is_square_safe` at h1 (square 7) across the board edge. -/
def wrap_test_board : BoardState :=
  { white_pawns := ⟨0⟩
    black_pawns := ⟨0⟩
    white_knights := ⟨0⟩
    black_knights := ⟨0⟩
    white_bishops := ⟨0⟩
    black_bishops := ⟨0⟩
    white_rooks := ⟨0⟩
    black_rooks := ⟨1 <<< 8⟩
    white_queens := ⟨0⟩
    black_queens := ⟨0⟩
    white_king := ⟨0⟩
    black_king := ⟨0⟩
    all_white := ⟨0⟩
    all_black := ⟨1 <<< 8⟩
    all_pieces := ⟨1 <<< 8⟩
    to_move := PieceColour.White
    castling_rights := ⟨false, false, false, false⟩
    en_passant_square := none }

/-- Rank of a square (square ÷ 8). -/
def sq_rank (s : Nat) : Nat := s / 8

/-- File of a square (square mod 8). -/
def sq_file (s : Nat) : Nat := s % 8

/-- Whether every square strictly between `a` and `s` (along the straight or
diagonal line from `a` to `s`) is empty.  Used by the no-wrap attack
predicate below. -/
def path_clear (b : BoardState) (a s : Nat) : Bool :=
  let ra : Int := sq_rank a
  let fa : Int := sq_file a
  let rs : Int := sq_rank s
  let fs : Int := sq_file s
  let dr := Int.sign (rs - ra)
  let df := Int.sign (fs - fa)
  let steps := max (rs - ra).natAbs (fs - fa).natAbs
  (List.range (steps - 1)).all (fun i =>
    let r := ra + (i + 1 : Nat) * dr
    let f := fa + (i + 1 : Nat) * df
    b.piece_at (r * 8 + f).toNat == none)

/-- Chess attack geometry without board-edge wraparound, written from the
claim's words (`C6`): a piece `p` standing on square `a` attacks square `s`
iff the rank/file deltas match its movement pattern — pawn diagonal attacks,
knight jumps, sliding rays blocked by the first occupied square, adjacent
king — computed in rank/file coordinates, so no pattern ever crosses a board
edge. -/
def piece_attacks_no_wrap (b : BoardState) (p : Piece) (a s : Nat) : Bool :=
  let dr : Int := (sq_rank s : Int) - sq_rank a
  let df : Int := (sq_file s : Int) - sq_file a
  if a == s then false
  else
    match p.kind with
    | PieceKind.Pawn =>
      (if p.colour == PieceColour.White then dr == 1 else dr == -1) && df.natAbs == 1
    | PieceKind.Knight =>
      (dr.natAbs == 1 && df.natAbs == 2) || (dr.natAbs == 2 && df.natAbs == 1)
    | PieceKind.King => dr.natAbs ≤ 1 && df.natAbs ≤ 1
    | PieceKind.Bishop => dr.natAbs == df.natAbs && path_clear b a s
    | PieceKind.Rook => (dr == 0 || df == 0) && path_clear b a s
    | PieceKind.Queen =>
      (dr.natAbs == df.natAbs || dr == 0 || df == 0) && path_clear b a s

/-- Whether any piece of colour `opponent_colour` attacks square `s` under
the no-wrap chess attack geometry of the claim. -/
def attacked_no_wrap (b : BoardState) (opponent_colour : PieceColour) (s : Nat) : Bool :=
  (List.range 64).any (fun a =>
    match b.piece_at a with
    | some p => p.colour == opponent_colour && piece_attacks_no_wrap b p a s
    | none => false)

/-- Declarative version of one offset probe of `is_square_safe`: some square
`t = square + offset` lies on `[0,64)` and holds a piece satisfying `check`. -/
def ProbeHit (b : BoardState) (square : Nat) (offset : Int) (check : Piece → Bool) : Prop :=
  ∃ t : Nat, (t : Int) = (square : Int) + offset ∧ t < 64 ∧
    ∃ p, b.piece_at t = some p ∧ check p = true

/-- Declarative version of one sliding ray of `is_square_safe`: there is a
step count `k ≥ 1` such that every square `square + j·direction` for
`1 ≤ j ≤ k` lies on `[0,64)`, the squares strictly before step `k` are empty,
and the square at step `k` holds a piece whose colour and kind match the ray
(per `slide_match`). -/
def RayHit (b : BoardState) (opponent_colour : PieceColour) (direction : Int)
    (square : Nat) : Prop :=
  ∃ k : Nat, 1 ≤ k ∧
    (∀ j : Nat, 1 ≤ j → j ≤ k →
      0 ≤ (square : Int) + j * direction ∧ (square : Int) + j * direction < 64) ∧
    (∀ j : Nat, 1 ≤ j → j < k →
      b.piece_at ((square : Int) + j * direction).toNat = none) ∧
    ∃ p, b.piece_at ((square : Int) + k * direction).toNat = some p ∧
      slide_match p opponent_colour direction = true

/-- Declarative description of the attack relation actually implemented by
`is_square_safe`: offset arithmetic on square indices bounds-checked to
`[0,64)` only, so patterns may wrap across file edges. -/
def WrapAttacked (b : BoardState) (square : Nat) : Prop :=
  (∃ offset ∈ pawn_attack_offsets b.to_move.opposite,
    ProbeHit b square offset (fun p =>
      p.kind == PieceKind.Pawn && p.colour == b.to_move.opposite)) ∨
  (∃ offset ∈ knight_offsets,
    ProbeHit b square offset (fun p =>
      p.kind == PieceKind.Knight && p.colour == b.to_move.opposite)) ∨
  (∃ direction ∈ sliding_directions, RayHit b b.to_move.opposite direction square) ∨
  (∃ offset ∈ king_offsets,
    ProbeHit b square offset (fun p =>
      p.kind == PieceKind.King && p.colour == b.to_move.opposite))

/-- The Zobrist key contributed by a square: the key of the occupying
(colour, kind, square) triple, if the square is occupied. -/
def piece_key_of (z : ZobristHashing) (b : BoardState) (square : Nat) : Option Nat :=
  (b.piece_at square).map (fun p =>
    z.piece_keys (colour_index p.colour) (piece_index p.kind) square)

/-- XOR of the piece keys of all occupied squares (spec-side formulation). -/
def spec_piece_hash (z : ZobristHashing) (b : BoardState) : Nat :=
  ((List.range 64).filterMap (piece_key_of z b)).foldr (· ^^^ ·) 0

/-- The 4-bit vector of the four *stored* castling-rights booleans, in the
order white-kingside (bit 0), white-queenside, black-kingside,
black-queenside (bit 3). -/
def castling_rights_vector (b : BoardState) : Nat :=
  (if b.castling_rights.wk then 1 else 0) |||
  (if b.castling_rights.wq then 2 else 0) |||
  (if b.castling_rights.bk then 4 else 0) |||
  (if b.castling_rights.bq then 8 else 0)

/-- The hash formula exactly as claim C4 states it: piece keys, side-to-move
key iff black to move, the castling key indexed by the *stored* rights
vector, and the en-passant-file key. -/
def spec_hash_stored (z : ZobristHashing) (b : BoardState) : Nat :=
  spec_piece_hash z b ^^^
    (if b.to_move = PieceColour.Black then z.side_to_move_key else 0) ^^^
    z.castling_keys (castling_rights_vector b) ^^^
    (match b.en_passant_square with
     | some ep => z.en_passant_keys (ep % 8)
     | none => 0)

/-- The hash formula with the castling key indexed by the *dynamic*
castling-eligibility vector `get_castling_rights_index` — the amended C4. -/
def spec_hash_dynamic (z : ZobristHashing) (b : BoardState) : Nat :=
  spec_piece_hash z b ^^^
    (if b.to_move = PieceColour.Black then z.side_to_move_key else 0) ^^^
    z.castling_keys b.get_castling_rights_index ^^^
    (match b.en_passant_square with
     | some ep => z.en_passant_keys (ep % 8)
     | none => 0)

/-- A concrete key table that separates the 16 castling keys: every other key
is 0 and `castling_keys i = i`. -/
def diag_keys : ZobristHashing :=
  ⟨fun _ _ _ => 0, 0, fun i => i, fun _ => 0⟩

/-- Spec-side formulation of kingside castling eligibility (amended C5): the
colour's kingside rights flag, the two between-squares empty on `all_pieces`,
the three king-path squares safe, and pieces of kind King / Rook (of either
colour) on the king and rook origin squares. -/
def can_castle_kingside_spec (b : BoardState) (colour : PieceColour) : Bool :=
  match colour with
  | PieceColour.White =>
    b.castling_rights.wk &&
      (!(b.all_pieces.is_set 5) && !(b.all_pieces.is_set 6)) &&
      (b.is_square_safe 4 && b.is_square_safe 5 && b.is_square_safe 6) &&
      (match b.piece_at 4 with
       | some p => p.kind == PieceKind.King
       | none => false) &&
      (match b.piece_at 7 with
       | some p => p.kind == PieceKind.Rook
       | none => false)
  | PieceColour.Black =>
    b.castling_rights.bk &&
      (!(b.all_pieces.is_set 61) && !(b.all_pieces.is_set 62)) &&
      (b.is_square_safe 60 && b.is_square_safe 61 && b.is_square_safe 62) &&
      (match b.piece_at 60 with
       | some p => p.kind == PieceKind.King
       | none => false) &&
      (match b.piece_at 63 with
       | some p => p.kind == PieceKind.Rook
       | none => false)

/-- Number of occurrences of fingerprint `z` among a list of history
entries. -/
def hash_occurrences (z : Nat) (l : List GameState) : Nat :=
  l.countP (fun g => g.zobrist_hash == z)

/-- The lock-step invariant between the entry list and the repetitions map:
keys are unique and looking up any fingerprint yields exactly its occurrence
count among the retained entries (absent iff the count is zero). -/
def RepsInv (h : History) : Prop :=
  (h.repetitions.map Prod.fst).Nodup ∧
    ∀ z, reps_lookup h.repetitions z =
      (if hash_occurrences z h.entries = 0 then none
       else some (hash_occurrences z h.entries))

/-! Claim theorems. -/

/-- C1.  The claim fails on the code: `clear_square` clears only the two pawn
bitboards and the aggregates (despite the source comment saying all
bitboards), so `set_piece_at(1, white rook)` on the start position leaves the
white knight bit of square 1 set.  `piece_at(1)` then reports the stale
knight, not the rook just placed, and square 1 belongs to two of the 12 piece
bit sets at once. -/
theorem C1_set_piece_at_stale_piece :
    (BoardState.new.set_piece_at 1 ⟨PieceKind.Rook, PieceColour.White⟩).piece_at 1 =
      some ⟨PieceKind.Knight, PieceColour.White⟩ ∧
    piece_sets_containing
      (BoardState.new.set_piece_at 1 ⟨PieceKind.Rook, PieceColour.White⟩) 1 = 2 := by
  decide

/-- C2.  The aggregate invariant holds in the initial position but is already
broken after a single `apply_move` (the quiet pawn push a2-a3, squares
8 → 16): `apply_move` never calls `update_aggregate_bitboards`, so the
destination square is missing from `all_pieces` while present in
`white_pawns`. -/
theorem C2_aggregates_broken_after_apply_move :
    aggregates_ok BoardState.new = true ∧
    (BoardState.new.apply_move ⟨8, 16, none⟩).map aggregates_ok = some false ∧
    (BoardState.new.apply_move ⟨8, 16, none⟩).map
      (fun s => (s.all_pieces.is_set 16, s.white_pawns.is_set 16)) =
      some (false, true) := by
  decide

/-- C3.  The claim fails on the code: applying the en-passant capture 36 → 43
in a position whose recorded en-passant target is 43 leaves the captured
black pawn standing on square 35.  `apply_move` calls
`update_en_passant_square` first, which clears the target (the capture's rank
delta is 1, not 2), so the subsequent `to == ep_square` check reads `None`
and the capture branch never fires. -/
theorem C3_en_passant_capture_not_resolved :
    (en_passant_test_board.apply_move ⟨36, 43, none⟩).map
      (fun s => (s.black_pawns.is_set 35, s.en_passant_square)) =
      some (true, none) := by
  decide

/-- C4, counterexample.  On the initial position the stored castling-rights
booleans are all `true` (vector 15) but `get_castling_rights_index` — which
queries the dynamic `can_castle_*` predicates, all `false` at game start — is
0, so with key tables separating the 16 castling keys the computed hash
differs from the formula of the claim. -/
theorem C4_counterexample :
    diag_keys.compute_hash BoardState.new ≠
      spec_hash_stored diag_keys BoardState.new := by
  decide

/-- C5, counterexample.  In the start position with f1/g1 vacated (the
repository's own test setup), placing an opposing rook on square 37 (f5) does
*not* make `can_castle_kingside(White)` false: the white f2 pawn (square 13)
blocks the rook's file, so f1 is not attacked and castling stays allowed —
the repository's `test_castling_kingside_under_attack` asserts the
opposite of what the code computes. -/
theorem C5_counterexample :
    (kingside_test_board.set_piece_at 37 ⟨PieceKind.Rook, PieceColour.Black⟩).can_castle_kingside
      PieceColour.White = true := by
  decide

/-- C6, counterexample.  With a lone black rook on a2 (square 8) and White to
move, no black piece attacks h1 (square 7) under no-wrap chess geometry, yet
`is_square_safe(7)` returns `false`: the +1 sliding ray walks from square 7
to square 8, wrapping from the h-file to the a-file of the next rank, and
sees the rook as an attacker. -/
theorem C6_counterexample :
    wrap_test_board.is_square_safe 7 = false ∧
    attacked_no_wrap wrap_test_board wrap_test_board.to_move.opposite 7 = false := by
  decide

/-- C9.  The public `piece_at` and the private `get_piece_at_square` are
extensionally equal: both check the 12 bitboards in the same fixed order. -/
theorem C9_piece_at_eq_get_piece_at_square :
    ∀ (b : BoardState) (square : Nat), b.piece_at square = b.get_piece_at_square square :=
  fun _ _ => rfl

/-- C10.  `is_fifty_move_rule` fails (the `count - 1` index computation
underflows, modelled as `none`) exactly on the empty history; on any history
with at least one entry it returns normally, `true` iff the most recent
entry's half-move clock is at least 100. -/
theorem C10_is_fifty_move_rule_total_iff_nonempty :
    ∀ h : History,
      (h.is_fifty_move_rule = none ↔ h.entries = []) ∧
      (∀ g, h.entries.getLast? = some g →
        h.is_fifty_move_rule = some (decide (100 ≤ g.half_move_clock))) := by
  intro h
  constructor
  · cases hl : h.entries.getLast? with
    | none =>
      simp [History.is_fifty_move_rule, hl]
      exact List.getLast?_eq_none_iff.mp hl
    | some g =>
      simp [History.is_fifty_move_rule, hl]
      intro he
      rw [he] at hl
      simp at hl
  · intro g hg
    simp [History.is_fifty_move_rule, hg]

/-- Witness for C10 at the one-entry history holding a clock of 100. -/
theorem C10_witness :
    History.is_fifty_move_rule ⟨[⟨12345, 100⟩], [(12345, 1)]⟩ = some true := by
  have := (C10_is_fifty_move_rule_total_iff_nonempty
    ⟨[⟨12345, 100⟩], [(12345, 1)]⟩).2 ⟨12345, 100⟩ rfl
  simpa using this

/-- Clearing a square does not touch the en-passant field. -/
theorem ep_clear (b : BoardState) (s : Nat) :
    (b.clear_square s).en_passant_square = b.en_passant_square := rfl

/-- Setting a piece does not touch the en-passant field. -/
theorem ep_set (b : BoardState) (s : Nat) (p : Piece) :
    (b.set_piece_at s p).en_passant_square = b.en_passant_square := by
  rcases p with ⟨k, c⟩
  cases k <;> cases c <;> rfl

/-- Flipping the turn does not touch the en-passant field. -/
theorem ep_flip (b : BoardState) :
    b.flip_turn.en_passant_square = b.en_passant_square := rfl

/-- The en-passant field computed by `update_en_passant_square` when the
origin square is occupied. -/
theorem ep_update (b : BoardState) (m : ChessMove) (piece : Piece)
    (hp : b.piece_at m.fromSq = some piece) :
    (b.update_en_passant_square m).en_passant_square =
      if piece.kind == PieceKind.Pawn &&
          (((m.toSq / 8 : Nat) : Int) - ((m.fromSq / 8 : Nat) : Int)).natAbs == 2 then
        some ((m.fromSq + m.toSq) / 2)
      else none := by
  simp [BoardState.update_en_passant_square, hp]
  split <;> rfl

/-- C7.  For every board and every move accepted by `apply_move` (i.e. the
origin is occupied), the resulting position's en-passant target is the
midpoint `(from + to) / 2` exactly when the moving piece is a pawn whose
absolute rank delta is 2, and `none` for every other move; when `apply_move`
panics (empty origin) both sides are `none`. -/
theorem C7_apply_move_en_passant :
    ∀ (b : BoardState) (m : ChessMove),
      (b.apply_move m).map (fun s => s.en_passant_square) =
        (b.piece_at m.fromSq).map (fun p =>
          if p.kind == PieceKind.Pawn &&
              (((m.toSq / 8 : Nat) : Int) - ((m.fromSq / 8 : Nat) : Int)).natAbs == 2 then
            some ((m.fromSq + m.toSq) / 2)
          else none) := by
  intro b m
  cases hp : b.piece_at m.fromSq with
  | none => simp [BoardState.apply_move, hp]
  | some p =>
    have hupd := ep_update b m p hp
    simp only [BoardState.apply_move, hp, Option.map_some', Option.some.injEq]
    rw [ep_flip]
    cases hk : (p.kind == PieceKind.Pawn) with
    | false =>
      simp only [hk, Bool.false_eq_true, if_false]
      rw [ep_set, ep_clear, hupd]
      simp [hk]
    | true =>
      cases hd : ((((m.toSq / 8 : Nat) : Int) - ((m.fromSq / 8 : Nat) : Int)).natAbs == 2) with
      | false =>
        have hupd2 : (b.update_en_passant_square m).en_passant_square = none := by
          rw [hupd, hk, hd]; simp
        simp only [hk, Bool.true_eq_false, if_true, Bool.true_and, hd,
          Bool.false_eq_true, if_false]
        cases hpr : m.promotion <;>
          simp only [ep_set, ep_clear, hupd2]
      | true =>
        have hupd2 : (b.update_en_passant_square m).en_passant_square =
            some ((m.fromSq + m.toSq) / 2) := by
          rw [hupd, hk, hd]; simp
        simp only [hk, Bool.true_and, hd, if_true]
        cases hpr : m.promotion <;>
          simp only [ep_set, ep_clear, hupd2] <;>
          split <;>
          simp only [ep_set, ep_clear, hupd2]

/-- C4, amended.  `compute_hash` is the XOR of the piece key of every occupied
square's (colour, kind, square) triple, the side-to-move key exactly when
black is to move, the castling key indexed by the 4-bit vector of the four
*dynamic* `can_castle_*` eligibility predicates (`get_castling_rights_index`),
and the en-passant-file key of the current target's file when one is set. -/
theorem C4_compute_hash_amended :
    ∀ (z : ZobristHashing) (b : BoardState), z.compute_hash b = spec_hash_dynamic z b := by
  intro z b
  have hfold : ∀ (l : List Nat) (a : Nat),
      l.foldl (fun hash square =>
        match b.piece_at square with
        | some piece =>
          hash ^^^ z.piece_keys (colour_index piece.colour) (piece_index piece.kind) square
        | none => hash) a =
      a ^^^ (l.filterMap (piece_key_of z b)).foldr (· ^^^ ·) 0 := by
    intro l
    induction l with
    | nil => intro a; simp
    | cons x xs ih =>
      intro a
      cases hf : b.piece_at x <;>
        simp [piece_key_of, hf, ih, Nat.xor_assoc]
  unfold ZobristHashing.compute_hash spec_hash_dynamic spec_piece_hash
  rw [hfold]
  cases hm : b.to_move <;> cases hep : b.en_passant_square <;>
    simp [Nat.zero_xor, Nat.xor_zero, Nat.xor_assoc]

/-- C5, amended.  `can_castle_kingside(colour)` is the conjunction of (a) the
colour's kingside rights flag, (b) the two between-squares being empty on the
`all_pieces` aggregate, (c) the three king-path squares being safe per
`is_square_safe` (which is relative to the side to move, not to `colour`),
and (d) pieces of kind King / Rook — of either colour — standing on the king
and rook origin squares.  Concretely: in the start position with f1/g1
vacated it returns `true`; placing an opposing rook on square 37 leaves it
`true` (the f2 pawn blocks the f-file, so f1 is not attacked); placing the
rook on square 13 (f2), where it genuinely attacks f1, makes it `false`. -/
theorem C5_can_castle_kingside_amended :
    (∀ (b : BoardState) (colour : PieceColour),
      b.can_castle_kingside colour = can_castle_kingside_spec b colour) ∧
    kingside_test_board.can_castle_kingside PieceColour.White = true ∧
    (kingside_test_board.set_piece_at 37
      ⟨PieceKind.Rook, PieceColour.Black⟩).can_castle_kingside PieceColour.White = true ∧
    (kingside_test_board.set_piece_at 13
      ⟨PieceKind.Rook, PieceColour.Black⟩).can_castle_kingside PieceColour.White = false := by
  refine ⟨?_, by decide, by decide, by decide⟩
  intro b colour
  cases colour <;>
    simp [BoardState.can_castle_kingside, can_castle_kingside_spec,
      BoardState.validate_castling_pieces, Bool.and_assoc]

theorem offset_probe_iff (b : BoardState) (sq : Nat) (off : Int) (chk : Piece → Bool) :
    offset_probe b sq off chk = true ↔ ProbeHit b sq off chk := by
  unfold offset_probe ProbeHit
  dsimp only
  split
  · next hin =>
    cases hp : b.piece_at ((sq : Int) + off).toNat with
    | none =>
      simp only [Bool.false_eq_true, false_iff]
      rintro ⟨t, ht, hlt, p, hpt, hc⟩
      have : ((sq : Int) + off).toNat = t := by omega
      rw [this, hpt] at hp
      exact Option.noConfusion hp
    | some p =>
      constructor
      · intro hc
        refine ⟨((sq : Int) + off).toNat, by omega, by omega, p, hp, hc⟩
      · rintro ⟨t, ht, hlt, p', hpt, hc⟩
        have : ((sq : Int) + off).toNat = t := by omega
        rw [this, hpt] at hp
        cases Option.some.inj hp
        exact hc
  · next hin =>
    simp only [Bool.false_eq_true, false_iff]
    rintro ⟨t, ht, hlt, p, hpt, hc⟩
    omega


theorem ray_attack_iff_gen (b : BoardState) (opp : PieceColour) (d : Int) :
    ∀ (fuel : Nat) (t0 : Int),
      ray_attack b opp d fuel t0 = true ↔
        ∃ k : Nat, k < fuel ∧
          (∀ j : Nat, j ≤ k → 0 ≤ t0 + j * d ∧ t0 + j * d < 64) ∧
          (∀ j : Nat, j < k → b.piece_at (t0 + j * d).toNat = none) ∧
          ∃ p, b.piece_at (t0 + k * d).toNat = some p ∧ slide_match p opp d = true := by
  intro fuel
  induction fuel with
  | zero =>
    intro t0
    simp [ray_attack]
  | succ fuel ih =>
    intro t0
    rw [ray_attack]
    split
    · next hin =>
      cases hp0 : b.piece_at t0.toNat with
      | some p =>
        simp only []
        constructor
        · intro hs
          refine ⟨0, Nat.succ_pos _, ?_, fun j hj => absurd hj (Nat.not_lt_zero j), p,
            by simpa using hp0, hs⟩
          intro j hj
          interval_cases j
          simpa using hin
        · rintro ⟨k, hk, hr, he, p', hp', hs⟩
          cases k with
          | zero =>
            rw [show t0 + (0 : Nat) * d = t0 by push_cast; ring] at hp'
            rw [hp'] at hp0
            cases Option.some.inj hp0
            exact hs
          | succ k' =>
            have := he 0 (Nat.succ_pos _)
            rw [show t0 + (0 : Nat) * d = t0 by push_cast; ring] at this
            rw [this] at hp0
            exact Option.noConfusion hp0
      | none =>
        rw [ih (t0 + d)]
        constructor
        · rintro ⟨k, hk, hr, he, p, hp, hs⟩
          refine ⟨k + 1, Nat.succ_lt_succ hk, ?_, ?_, p, ?_, hs⟩
          · intro j hj
            cases j with
            | zero => simpa using hin
            | succ j' =>
              rw [show t0 + (j' + 1 : Nat) * d = t0 + d + j' * d by push_cast; ring]
              exact hr j' (Nat.le_of_succ_le_succ hj)
          · intro j hj
            cases j with
            | zero =>
              rw [show t0 + (0 : Nat) * d = t0 by push_cast; ring]
              exact hp0
            | succ j' =>
              rw [show t0 + (j' + 1 : Nat) * d = t0 + d + j' * d by push_cast; ring]
              exact he j' (Nat.lt_of_succ_lt_succ hj)
          · rw [show t0 + (k + 1 : Nat) * d = t0 + d + k * d by push_cast; ring]
            exact hp
        · rintro ⟨k, hk, hr, he, p, hp, hs⟩
          cases k with
          | zero =>
            rw [show t0 + (0 : Nat) * d = t0 by push_cast; ring] at hp
            rw [hp] at hp0
            exact Option.noConfusion hp0
          | succ k' =>
            refine ⟨k', Nat.lt_of_succ_lt_succ hk, ?_, ?_, p, ?_, hs⟩
            · intro j hj
              rw [show t0 + d + (j : Nat) * d = t0 + (j + 1 : Nat) * d by push_cast; ring]
              exact hr (j + 1) (Nat.succ_le_succ hj)
            · intro j hj
              have := he (j + 1) (Nat.succ_lt_succ hj)
              rw [show t0 + d + (j : Nat) * d = t0 + (j + 1 : Nat) * d by push_cast; ring]
              exact this
            · rw [show t0 + d + (k' : Nat) * d = t0 + (k' + 1 : Nat) * d by push_cast; ring]
              exact hp
    · next hin =>
      simp only [Bool.false_eq_true, false_iff]
      rintro ⟨k, hk, hr, he, p, hp, hs⟩
      have := hr 0 (Nat.zero_le k)
      rw [show t0 + (0 : Nat) * d = t0 by push_cast; ring] at this
      exact hin this


theorem ray_attack_iff (b : BoardState) (opp : PieceColour) (d : Int) (sq : Nat)
    (hd : d ≠ 0) :
    ray_attack b opp d 64 ((sq : Int) + d) = true ↔ RayHit b opp d sq := by
  rw [ray_attack_iff_gen]
  unfold RayHit
  constructor
  · rintro ⟨k, hk, hr, he, p, hp, hs⟩
    refine ⟨k + 1, Nat.succ_le_succ (Nat.zero_le k), ?_, ?_, p, ?_, hs⟩
    · intro j hj1 hjk
      obtain ⟨j', rfl⟩ : ∃ j', j = j' + 1 := ⟨j - 1, by omega⟩
      rw [show (sq : Int) + (j' + 1 : Nat) * d = (sq : Int) + d + j' * d by push_cast; ring]
      exact hr j' (by omega)
    · intro j hj1 hjk
      obtain ⟨j', rfl⟩ : ∃ j', j = j' + 1 := ⟨j - 1, by omega⟩
      rw [show (sq : Int) + (j' + 1 : Nat) * d = (sq : Int) + d + j' * d by push_cast; ring]
      exact he j' (by omega)
    · rw [show (sq : Int) + (k + 1 : Nat) * d = (sq : Int) + d + k * d by push_cast; ring]
      exact hp
  · rintro ⟨k, hk1, hr, he, p, hp, hs⟩
    obtain ⟨k', rfl⟩ : ∃ k', k = k' + 1 := ⟨k - 1, by omega⟩
    have hA := hr 1 (le_refl 1) (by omega)
    have hB := hr (k' + 1) (by omega) (le_refl _)
    rw [show (sq : Int) + (1 : Nat) * d = (sq : Int) + d by push_cast; ring] at hA
    have hdiff : (sq : Int) + (k' + 1 : Nat) * d - ((sq : Int) + d) = (k' : Int) * d := by
      push_cast
      ring
    have habs : ((k' : Int) * d).natAbs < 64 := by omega
    rw [Int.natAbs_mul, Int.natAbs_ofNat] at habs
    have hpos : 0 < d.natAbs := Int.natAbs_pos.mpr hd
    have hklt : k' < 64 := by
      calc k' ≤ k' * d.natAbs := Nat.le_mul_of_pos_right k' hpos
        _ < 64 := habs
    refine ⟨k', hklt, ?_, ?_, p, ?_, hs⟩
    · intro j hj
      rw [show (sq : Int) + d + (j : Nat) * d = (sq : Int) + (j + 1 : Nat) * d by push_cast; ring]
      exact hr (j + 1) (by omega) (by omega)
    · intro j hj
      rw [show (sq : Int) + d + (j : Nat) * d = (sq : Int) + (j + 1 : Nat) * d by push_cast; ring]
      exact he (j + 1) (by omega) (by omega)
    · rw [show (sq : Int) + d + (k' : Nat) * d = (sq : Int) + (k' + 1 : Nat) * d by push_cast; ring]
      exact hp


theorem if_chain (a b c d : Bool) :
    (if a then false else if b then false else if c then false else if d then false else true)
      = !(a || b || c || d) := by
  cases a <;> cases b <;> cases c <;> cases d <;> rfl

theorem any_probe_iff (b : BoardState) (sq : Nat) (l : List Int) (chk : Piece → Bool) :
    (l.any fun off => offset_probe b sq off chk) = true ↔
      ∃ off ∈ l, ProbeHit b sq off chk := by
  simp [List.any_eq_true, offset_probe_iff]

theorem any_ray_iff (b : BoardState) (opp : PieceColour) (sq : Nat) :
    (sliding_directions.any fun dir => ray_attack b opp dir 64 ((sq : Int) + dir)) = true ↔
      ∃ dir ∈ sliding_directions, RayHit b opp dir sq := by
  rw [List.any_eq_true]
  constructor
  · rintro ⟨d, hm, hr⟩
    refine ⟨d, hm, ?_⟩
    have hd : d ≠ 0 := by fin_cases hm <;> decide
    exact (ray_attack_iff b opp d sq hd).mp hr
  · rintro ⟨d, hm, hr⟩
    refine ⟨d, hm, ?_⟩
    have hd : d ≠ 0 := by fin_cases hm <;> decide
    exact (ray_attack_iff b opp d sq hd).mpr hr

theorem not_or4_iff (a b c d : Bool) (P Q R S : Prop)
    (ha : a = true ↔ P) (hb : b = true ↔ Q) (hc : c = true ↔ R) (hd : d = true ↔ S) :
    ((!(a || b || c || d)) = true) ↔ ¬(P ∨ Q ∨ R ∨ S) := by
  cases a <;> cases b <;> cases c <;> cases d <;> simp_all

theorem C6_is_square_safe_amended :
    ∀ (b : BoardState) (square : Nat),
      b.is_square_safe square = true ↔ ¬ WrapAttacked b square := by
  intro b sq
  unfold BoardState.is_square_safe WrapAttacked
  dsimp only
  rw [if_chain]
  exact not_or4_iff _ _ _ _ _ _ _ _
    (any_probe_iff b sq (pawn_attack_offsets b.to_move.opposite) _)
    (any_probe_iff b sq knight_offsets _)
    (any_ray_iff b b.to_move.opposite sq)
    (any_probe_iff b sq king_offsets _)

theorem reps_lookup_incr (l : List (Nat × Nat)) (z0 z : Nat) :
    reps_lookup (reps_incr l z0) z =
      if z = z0 then some ((reps_lookup l z0).getD 0 + 1) else reps_lookup l z := by
  induction l with
  | nil =>
    by_cases hz : z = z0
    · subst hz
      simp [reps_incr, reps_lookup]
    · simp [reps_incr, reps_lookup, hz, Ne.symm hz]
  | cons kv rest ih =>
    rcases kv with ⟨k, v⟩
    by_cases hk : k = z0
    · subst hk
      by_cases hz : z = k
      · subst hz
        simp [reps_incr, reps_lookup]
      · simp [reps_incr, reps_lookup, hz, Ne.symm hz]
    · by_cases hz : z = z0
      · subst hz
        simp [reps_incr, reps_lookup, hk, ih]
      · by_cases hkz : k = z <;> simp [reps_incr, reps_lookup, hk, hkz, hz, ih]

theorem mem_keys_incr (l : List (Nat × Nat)) (z0 x : Nat) :
    x ∈ (reps_incr l z0).map Prod.fst ↔ x ∈ l.map Prod.fst ∨ x = z0 := by
  induction l with
  | nil => simp [reps_incr]
  | cons kv rest ih =>
    rcases kv with ⟨k, v⟩
    by_cases hk : k = z0 <;> simp [reps_incr, hk, ih] <;> tauto

theorem keys_nodup_incr (l : List (Nat × Nat)) (z0 : Nat)
    (h : (l.map Prod.fst).Nodup) : ((reps_incr l z0).map Prod.fst).Nodup := by
  induction l with
  | nil => simp [reps_incr]
  | cons kv rest ih =>
    rcases kv with ⟨k, v⟩
    rcases List.nodup_cons.mp h with ⟨hk, hrest⟩
    by_cases hkz : k = z0
    · subst hkz
      simpa [reps_incr] using h
    · simp only [reps_incr, hkz, if_false, List.map_cons, List.nodup_cons]
      refine ⟨?_, ih hrest⟩
      rw [mem_keys_incr]
      rintro (hmem | rfl)
      · exact hk hmem
      · exact hkz rfl

theorem lookup_eq_none_of_not_mem (l : List (Nat × Nat)) (x : Nat)
    (h : x ∉ l.map Prod.fst) : reps_lookup l x = none := by
  induction l with
  | nil => rfl
  | cons kv rest ih =>
    rcases kv with ⟨k, v⟩
    simp only [List.map_cons, List.mem_cons] at h
    push_neg at h
    simp [reps_lookup, Ne.symm h.1, ih h.2]

theorem keys_decr_sublist (l : List (Nat × Nat)) (z0 : Nat) :
    ((reps_decr l z0).map Prod.fst).Sublist (l.map Prod.fst) := by
  induction l with
  | nil => simp [reps_decr]
  | cons kv rest ih =>
    rcases kv with ⟨k, v⟩
    by_cases hk : k = z0
    · subst hk
      by_cases hv : v - 1 = 0
      · simp only [reps_decr, if_pos rfl, if_pos hv, List.map_cons]
        exact List.sublist_cons_self _ _
      · simp [reps_decr, hv]
    · simpa [reps_decr, hk] using ih.cons₂ k

theorem reps_lookup_decr (l : List (Nat × Nat)) (z0 z : Nat)
    (hnd : (l.map Prod.fst).Nodup) :
    reps_lookup (reps_decr l z0) z =
      if z = z0 then
        match reps_lookup l z0 with
        | some v => if v - 1 = 0 then none else some (v - 1)
        | none => none
      else reps_lookup l z := by
  induction l with
  | nil => by_cases hz : z = z0 <;> simp [reps_decr, reps_lookup, hz]
  | cons kv rest ih =>
    rcases kv with ⟨k, v⟩
    rcases List.nodup_cons.mp hnd with ⟨hknotin, hndrest⟩
    by_cases hk : k = z0
    · subst hk
      by_cases hz : z = k
      · subst hz
        by_cases hv : v - 1 = 0 <;>
          simp [reps_decr, reps_lookup, hv, lookup_eq_none_of_not_mem rest z hknotin]
      · by_cases hv : v - 1 = 0 <;>
          simp [reps_decr, reps_lookup, hv, hz, Ne.symm hz]
    · by_cases hz : z = z0
      · subst hz
        simp [reps_decr, reps_lookup, hk, ih hndrest]
      · by_cases hkz : k = z <;>
          simp [reps_decr, reps_lookup, hk, hkz, hz, ih hndrest]

theorem mem_lookup_iff (l : List (Nat × Nat)) (hnd : (l.map Prod.fst).Nodup)
    (z n : Nat) : (z, n) ∈ l ↔ reps_lookup l z = some n := by
  induction l with
  | nil => simp [reps_lookup]
  | cons kv rest ih =>
    rcases kv with ⟨k, v⟩
    rcases List.nodup_cons.mp hnd with ⟨hknotin, hndrest⟩
    by_cases hk : k = z
    · subst hk
      constructor
      · intro hmem
        rcases List.mem_cons.mp hmem with heq | hmem
        · injection heq with h1 h2
          subst h2
          simp [reps_lookup]
        · exact absurd (List.mem_map_of_mem Prod.fst hmem) hknotin
      · intro hv
        have hvn : v = n := by simpa [reps_lookup] using hv
        subst hvn
        exact List.mem_cons_self _ _
    · simp only [reps_lookup, if_neg hk, List.mem_cons, Prod.mk.injEq]
      rw [← ih hndrest]
      constructor
      · rintro (⟨rfl, -⟩ | hmem)
        · exact absurd rfl hk
        · exact hmem
      · exact Or.inr

theorem occ_append (z : Nat) (l : List GameState) (g : GameState) :
    hash_occurrences z (l ++ [g]) =
      hash_occurrences z l + if g.zobrist_hash = z then 1 else 0 := by
  simp [hash_occurrences, List.countP_append, List.countP_cons]

theorem reached_inv : ∀ h : History, Reached h → RepsInv h := by
  intro h hr
  induction hr with
  | new =>
    exact ⟨List.nodup_nil, fun z => by simp [History.new, reps_lookup, hash_occurrences]⟩
  | @push h h' g hr hpush ih =>
    rcases ih with ⟨hnd, hlk⟩
    unfold History.push at hpush
    split at hpush
    · cases Option.some.inj hpush
      refine ⟨keys_nodup_incr _ _ hnd, fun z => ?_⟩
      rw [reps_lookup_incr]
      by_cases hz : z = g.zobrist_hash
      · subst hz
        rw [if_pos rfl, occ_append, if_pos rfl, hlk _]
        by_cases h0 : hash_occurrences g.zobrist_hash h.entries = 0 <;> simp [h0]
      · rw [if_neg hz, occ_append, if_neg (Ne.symm hz)]
        simpa using hlk z
    · exact Option.noConfusion hpush
  | @pop h hr ih =>
    rcases ih with ⟨hnd, hlk⟩
    unfold History.pop
    cases hl : h.entries.getLast? with
    | none => exact ⟨hnd, hlk⟩
    | some state =>
      obtain ⟨l', hl'⟩ := List.getLast?_eq_some_iff.mp hl
      refine ⟨(keys_decr_sublist _ _).nodup hnd, fun z => ?_⟩
      rw [reps_lookup_decr _ _ _ hnd]
      have hdrop : h.entries.dropLast = l' := by rw [hl']; exact List.dropLast_concat ..
      by_cases hz : z = state.zobrist_hash
      · subst hz
        have hocc : hash_occurrences state.zobrist_hash h.entries =
            hash_occurrences state.zobrist_hash l' + 1 := by
          rw [hl', occ_append, if_pos rfl]
        rw [if_pos rfl, hlk _, hocc, hdrop]
        by_cases h0 : hash_occurrences state.zobrist_hash l' = 0 <;> simp [h0]
      · have hocc : hash_occurrences z h.entries = hash_occurrences z l' := by
          rw [hl', occ_append, if_neg (Ne.symm hz)]
          simp
        rw [if_neg hz, hlk z, hocc, hdrop]
  | clear =>
    exact ⟨List.nodup_nil, fun z => by simp [History.clear, reps_lookup, hash_occurrences]⟩

/-- C8.  For every history reachable by `push` / `pop` / `clear`,
`is_threefold_repetition` is true iff some fingerprint occurs at least three
times among the currently retained entries. -/
theorem C8_threefold_repetition_iff :
    ∀ h : History, Reached h →
      (h.is_threefold_repetition = true ↔ ∃ z, 3 ≤ hash_occurrences z h.entries) := by
  intro h hr
  obtain ⟨hnd, hlk⟩ := reached_inv h hr
  unfold History.is_threefold_repetition
  rw [List.any_eq_true]
  constructor
  · rintro ⟨⟨z, n⟩, hmem, h3⟩
    have hm := (mem_lookup_iff _ hnd z n).mp hmem
    rw [hlk z] at hm
    by_cases h0 : hash_occurrences z h.entries = 0
    · rw [if_pos h0] at hm
      exact Option.noConfusion hm
    · rw [if_neg h0] at hm
      cases Option.some.inj hm
      exact ⟨z, by simpa using h3⟩
  · rintro ⟨z, h3⟩
    have h0 : hash_occurrences z h.entries ≠ 0 := by omega
    have hm : reps_lookup h.repetitions z = some (hash_occurrences z h.entries) := by
      rw [hlk z, if_neg h0]
    exact ⟨(z, hash_occurrences z h.entries), (mem_lookup_iff _ hnd _ _).mpr hm,
      by simpa using h3⟩

/-- Witness for C8: three pushes of the same fingerprint (hash 7) from the
empty history make `is_threefold_repetition` true. -/
theorem C8_witness :
    History.is_threefold_repetition ⟨[⟨7, 0⟩, ⟨7, 0⟩, ⟨7, 0⟩], [(7, 3)]⟩ = true := by
  have hreach : Reached ⟨[⟨7, 0⟩, ⟨7, 0⟩, ⟨7, 0⟩], [(7, 3)]⟩ :=
    Reached.push (g := ⟨7, 0⟩)
      (Reached.push (g := ⟨7, 0⟩)
        (Reached.push (g := ⟨7, 0⟩) Reached.new rfl) rfl) rfl
  exact (C8_threefold_repetition_iff _ hreach).mpr ⟨7, by decide⟩

end Jurgio
